import Mathlib

/-!
Verification of the long-term user-memory subsystem
(`backend/app/services/memory_service.py`, `backend/app/services/embedding_service.py`,
`backend/app/models/mongo_models.py`).

Shallow embedding conventions:
* Python floats are modelled as exact rationals (`ℚ`); timestamps as integers
  (days); ids and enum-like strings as `String`.
* The MongoDB collection is modelled as a `List UserMemoryDocument`; a write
  returning normally yields the updated list, a raised exception is an
  `Except.error` carrying a `PyErr` and leaves the list unchanged.
* The external sentence-transformers encoder is an oracle parameter
  `encode : String → Except PyErr (List ℚ)`; everything around it is
  translated from the source.
* Float literals of the source are written with `mkRat` (e.g. `0.1` is
  `mkRat 1 10`) so that all definitions stay kernel-computable.
* Python `list.sort(key=k, reverse=True)` is the stable descending sort by
  `k`; it is realised here by a structurally recursive stable insertion sort
  (`stableSortDesc`), which computes the same list.
-/

/-- Python exceptions that the modelled code can raise. -/
inductive PyErr where
  | valueError (msg : String)
  | nameError (name : String)
deriving Repr, DecidableEq

instance {ε α : Type} [DecidableEq ε] [DecidableEq α] : DecidableEq (Except ε α) := fun
  | Except.error e, Except.error f =>
      if h : e = f then Decidable.isTrue (h ▸ rfl)
      else Decidable.isFalse (fun hc => h (by injection hc))
  | Except.error _, Except.ok _ => Decidable.isFalse (fun hc => Except.noConfusion hc)
  | Except.ok _, Except.error _ => Decidable.isFalse (fun hc => Except.noConfusion hc)
  | Except.ok a, Except.ok b =>
      if h : a = b then Decidable.isTrue (h ▸ rfl)
      else Decidable.isFalse (fun hc => h (by injection hc))

/-- One entry of `UserMemoryDocument.relationships`:
`{"memory_id": str, "type": str, "strength": float, "created_at": datetime}`. -/
structure Relationship where
  memory_id : String
  type : String
  strength : ℚ
  created_at : ℤ
deriving Repr, DecidableEq

/-- The fields of `UserMemoryDocument` (mongo_models.py) that the memory
service operations under verification read or write. -/
structure UserMemoryDocument where
  id : Option String
  user_id : String
  memory_type : String
  content : String
  embedding : Option (List ℚ)
  importance : ℚ
  confidence : ℚ
  tags : List String
  category : Option String
  contexts : List String
  status : String
  relevance_score : ℚ
  access_count : Nat
  last_accessed : Option ℤ
  extraction_method : String
  is_consolidated : Bool
  consolidation_count : Nat
  consolidated_from : List String
  conflict_detected : Bool
  conflict_ids : List String
  relationships : List Relationship
  superseded_by : Option String
  created_at : ℤ
deriving Repr, DecidableEq

/-- A neutral document carrying the pydantic defaults of `UserMemoryDocument`
(importance 0.5, confidence 1.0, relevance_score 1.0, status "pending"). -/
def baseDoc : UserMemoryDocument :=
  { id := none, user_id := "", memory_type := "fact", content := ""
    embedding := none, importance := mkRat 1 2, confidence := 1, tags := []
    category := none, contexts := [], status := "pending"
    relevance_score := 1, access_count := 0, last_accessed := none
    extraction_method := "manual", is_consolidated := false
    consolidation_count := 0, consolidated_from := [], conflict_detected := false
    conflict_ids := [], relationships := [], superseded_by := none
    created_at := 0 }

/-! ### String helpers (Python `str.lower`, substring containment) -/

/-- Python `str.lower()` restricted to the ASCII texts the heuristics see. -/
def strLower (s : String) : String := String.mk (s.data.map Char.toLower)

/-- `charsStartWith needle hay` : `needle` is an initial segment of `hay`. -/
def charsStartWith : List Char → List Char → Bool
  | [], _ => true
  | _ :: _, [] => false
  | n :: ns, h :: hs => n = h && charsStartWith ns hs

/-- `charsContain hay needle` : `needle` occurs contiguously in `hay`. -/
def charsContain : List Char → List Char → Bool
  | [], needle => needle.isEmpty
  | h :: t, needle => charsStartWith needle (h :: t) || charsContain t needle

/-- Substring test on strings (`needle in hay` for Python strings). -/
def strContains (hay needle : String) : Bool := charsContain hay.data needle.data

/-! ### `MemoryService._check_contradiction` (memory_service.py 1629-1655)

The source builds its patterns with *raw* strings, e.g. `r"\\bprefers?\\b"`.
After raw-string parsing the regex reads `\\bprefers?\\b`, in which `\\`
matches one literal backslash character; `?` makes the preceding `s`
optional and `(a|b)` alternates.  These are the only metacharacters used, so
each pattern denotes a finite set of literal strings, each beginning and
ending with a literal backslash followed by `b`.  `re.search` then succeeds
iff one of those literals occurs as a substring.  The expansions below list
those literal strings exactly (Lean `"\\b"` is the two characters `\` `b`). -/

/-- The apostrophe character, for the literal `doesn't use`. -/
def apos : String := String.mk [Char.ofNat 39]

/-- The eight `negation_pairs` of `_check_contradiction`, each regex expanded
into the finite set of literal strings it can match. -/
def negation_pairs : List (List String × List String) :=
  [ (["\\bprefer\\b", "\\bprefers\\b"],
     ["\\bdislike\\b", "\\bdislikes\\b", "\\bhate\\b", "\\bhates\\b",
      "\\bavoid\\b", "\\bavoids\\b"]),
    (["\\blike\\b", "\\blikes\\b"],
     ["\\bdislike\\b", "\\bdislikes\\b", "\\bhate\\b", "\\bhates\\b"]),
    (["\\buse\\b", "\\buses\\b"],
     ["\\bdoesn" ++ apos ++ "t use\\b", "\\bnever use\\b", "\\bnever uses\\b"]),
    (["\\bwork at\\b", "\\bworks at\\b", "\\bwork for\\b", "\\bworks for\\b"],
     ["\\bleft\\b", "\\bquit\\b", "\\bfired from\\b"]),
    (["\\bexpert in\\b", "\\bexpert at\\b"],
     ["\\bbeginner\\b", "\\bnew to\\b", "\\blearning\\b"]),
    (["\\byes\\b"], ["\\bno\\b"]),
    (["\\btrue\\b"], ["\\bfalse\\b"]),
    (["\\balways\\b"], ["\\bnever\\b"]) ]

/-- `re.search(pattern, s)` for the patterns above: some expansion literal is
a substring of `s`. -/
def re_search (alternatives : List String) (s : String) : Bool :=
  alternatives.any (fun lit => strContains s lit)

/-- `MemoryService._check_contradiction(content1, content2)`. -/
def check_contradiction (content1 content2 : String) : Bool :=
  let c1 := strLower content1
  let c2 := strLower content2
  negation_pairs.any (fun p =>
    (re_search p.1 c1 && re_search p.2 c2) ||
    (re_search p.2 c1 && re_search p.1 c2))

/-! ### Embedding provider (embedding_service.py) -/

/-- Python `not text or not text.strip()`: the text is empty or whitespace. -/
def pyBlank (text : String) : Bool := text.data.all Char.isWhitespace

/-- `EmbeddingService.generate_embedding(text, validate)` (lines 39-82),
with the external `model.encode` as the oracle `encode`.  `dim` is
`self.embedding_dim` (384 for the default model).  The dimension check that
raises inside the `try` is re-raised by the `except` when `validate` is
true, and swallowed into a zero vector otherwise. -/
def generate_embedding (encode : String → Except PyErr (List ℚ)) (dim : Nat)
    (text : String) (validate : Bool) : Except PyErr (List ℚ) :=
  if pyBlank text then
    if validate then
      Except.error (PyErr.valueError "Cannot generate embedding for empty text")
    else
      Except.ok (List.replicate dim 0)
  else
    match encode text with
    | Except.error e =>
        if validate then Except.error e else Except.ok (List.replicate dim 0)
    | Except.ok embedding_list =>
        if validate && (embedding_list.isEmpty || embedding_list.length ≠ dim) then
          Except.error (PyErr.valueError "Invalid embedding dimension")
        else
          Except.ok embedding_list

/-- Dot product of two embedding vectors (`np.dot`). -/
def listDot (v1 v2 : List ℚ) : ℚ := (List.zipWith (· * ·) v1 v2).sum

/-- Sum of squares of a vector's entries. -/
def sumSq (v : List ℚ) : ℚ := (v.map (fun x => x * x)).sum

/-- `np.linalg.norm`, the Euclidean norm, as a real number. -/
noncomputable def npNorm (v : List ℚ) : ℝ := Real.sqrt ((sumSq v : ℚ) : ℝ)

open Classical in
/-- `EmbeddingService.cosine_similarity(embedding1, embedding2)`
(lines 105-137): empty inputs and zero-norm inputs return 0.0, otherwise the
cosine is rescaled from [-1,1] to [0,1]. -/
noncomputable def cosine_similarity (v1 v2 : List ℚ) : ℝ :=
  if v1 = [] ∨ v2 = [] then 0
  else if npNorm v1 = 0 ∨ npNorm v2 = 0 then 0
  else (((listDot v1 v2 : ℚ) : ℝ) / (npNorm v1 * npNorm v2) + 1) / 2

/-! ### `MemoryService.create_memory` (memory_service.py 50-112)

Between the capacity check and the `insert_one`, the source constructs
`UserMemoryDocument(user_id=user_id, content=mem_data["content"], ...)`.
Python evaluates the keyword arguments left to right, looking each free
name up in the enclosing scopes; the names bound there are listed in
`create_memory_scope`, the free names of the constructor's arguments in
source order in `create_memory_doc_arg_names`.  The first referenced name
missing from the scope raises `NameError` and aborts the call before the
insert. -/

/-- Free names referenced by the `UserMemoryDocument(...)` constructor
arguments of `create_memory`, in evaluation order. -/
def create_memory_doc_arg_names : List String :=
  ["user_id", "mem_data", "mem_data", "mem_data", "mem_data", "mem_data",
   "mem_data", "time_context", "mem_data", "embedding", "session_id",
   "datetime", "datetime"]

/-- Names in scope inside `create_memory` at the point of the constructor:
its parameters, its earlier local bindings, and the module-level imports. -/
def create_memory_scope : List String :=
  ["self", "user_id", "request", "skip_limit_check", "memory_count",
   "embedding_service", "embedding",
   "logging", "json", "re", "datetime", "timedelta", "asyncio", "httpx",
   "UserMemoryDocument", "MemoryCreateRequest", "MemoryUpdateRequest",
   "MemorySearchRequest", "MemoryExtractionRequest", "MessageDocument",
   "settings", "get_embedding_service", "logger", "MemoryService"]

/-- The first constructor argument name that is not in scope (if any). -/
def create_memory_first_undefined : Option String :=
  create_memory_doc_arg_names.find? (fun n => !(create_memory_scope.contains n))

/-- The `ValueError` message of the hard memory limit. -/
def capacityErrorMsg : String :=
  "Memory limit exceeded (2000). Please delete some old memories before creating new ones."

/-- `MemoryService.create_memory(user_id, request, skip_limit_check)`.
The pair returned is (outcome, collection after the call); every `raise`
leaves the collection unchanged.  `content` is `request.content`; the
embedding is generated with the default `validate=True`. -/
def create_memory (encode : String → Except PyErr (List ℚ))
    (store : List UserMemoryDocument) (user_id : String) (content : String)
    (skip_limit_check : Bool) :
    Except PyErr UserMemoryDocument × List UserMemoryDocument :=
  let memory_count := (store.filter (fun m => m.user_id = user_id)).length
  if !skip_limit_check && decide (2000 ≤ memory_count) then
    (Except.error (PyErr.valueError capacityErrorMsg), store)
  else
    match generate_embedding encode 384 content true with
    | Except.error e => (Except.error e, store)
    | Except.ok embedding =>
        match create_memory_first_undefined with
        | some n => (Except.error (PyErr.nameError n), store)
        | none =>
            let memory_doc := { baseDoc with
              user_id := user_id, content := content,
              embedding := some embedding, status := "pending" }
            (Except.ok memory_doc, store ++ [memory_doc])

/-! ### `MemoryService.verify_memory` (memory_service.py 757-848)

The pure state change that the `$set` update applies to the matched
document, per action.  `embed` stands for the embedding regeneration of the
`correct` branch; `none` is returned where the source returns `False`
without updating (missing corrected content, unknown action). -/

/-- The `$set` document update of `verify_memory` for a given `action`. -/
def verify_memory_apply (m : UserMemoryDocument) (action : String)
    (corrected_content : Option String) (corrected_importance : Option ℚ)
    (corrected_tags : Option (List String)) (embed : String → List ℚ) :
    Option UserMemoryDocument :=
  if action = "confirm" then
    some { m with status := "confirmed", confidence := 1,
                  relevance_score := min (m.relevance_score + mkRat 2 10) 1 }
  else if action = "reject" then
    some { m with status := "rejected", confidence := 0, relevance_score := 0 }
  else if action = "correct" then
    match corrected_content with
    | none => none
    | some c =>
        let m1 := { m with status := "corrected", content := c,
                           confidence := mkRat 9 10, embedding := some (embed c) }
        let m2 := match corrected_importance with
          | some imp => { m1 with importance := imp }
          | none => m1
        let m3 := match corrected_tags with
          | some ts => { m2 with tags := ts }
          | none => m2
        some m3
  else none

/-! ### `MemoryService.decay_memories` (memory_service.py 882-913) -/

/-- The filter of the decay `update_many`: owned by the user, last accessed
before the 30-day cutoff or never, and `relevance_score > 0.1`. -/
def decayEligible (user_id : String) (cutoff : ℤ) (m : UserMemoryDocument) : Bool :=
  m.user_id = user_id &&
  (match m.last_accessed with
   | none => true
   | some t => decide (t < cutoff)) &&
  decide (mkRat 1 10 < m.relevance_score)

/-- `MemoryService.decay_memories(user_id, decay_rate)` at time `now`
(in days): `$inc` of `-decay_rate` on every eligible document, no floor. -/
def decay_memories (store : List UserMemoryDocument) (user_id : String)
    (decay_rate : ℚ) (now : ℤ) : List UserMemoryDocument :=
  let cutoff := now - 30
  store.map (fun m =>
    if decayEligible user_id cutoff m then
      { m with relevance_score := m.relevance_score - decay_rate }
    else m)

/-! ### Stable descending sort (Python `list.sort(key=k, reverse=True)`)

Python's sort is stable; with `reverse=True` it produces the descending
order in which elements with equal keys keep their original relative
order.  `stableSortDesc ge` with `ge a b := decide (key b ≤ key a)`
computes exactly that list. -/

/-- Insert `x` before the first element `y` with `ge x y` (i.e. after every
strictly greater element and before every equal-or-smaller one). -/
def sortInsert (ge : α → α → Bool) (x : α) : List α → List α
  | [] => [x]
  | y :: ys => if ge x y then x :: y :: ys else y :: sortInsert ge x ys

/-- Stable insertion sort for a descending order given by `ge`. -/
def stableSortDesc (ge : α → α → Bool) : List α → List α
  | [] => []
  | x :: xs => sortInsert ge x (stableSortDesc ge xs)

/-- The comparator of a Python `sort(key=key, reverse=True)`. -/
def geByKey (key : α → ℚ) : α → α → Bool := fun a b => decide (key b ≤ key a)

/-! ### `MemoryService.get_relevant_memories` (memory_service.py 238-357)

The cosine similarity of the query embedding with a memory's embedding and
the keyword fallback `_keyword_relevance` are abstracted as the oracles
`simOf` and `kwOf`; the candidate filter, score composition, sort and
truncation are translated from the source.  The access-count update has no
effect on the returned list and is omitted. -/

/-- The status multiplier dictionary with default 1.0. -/
def status_multiplier (status : String) : ℚ :=
  if status = "confirmed" then mkRat 12 10
  else if status = "corrected" then mkRat 11 10
  else if status = "pending" then 1
  else if status = "rejected" then 0
  else 1

/-- Phase 2 context matching boost: 15% per matching context. -/
def context_multiplier (conversation_contexts : Option (List String))
    (mem_contexts : List String) : ℚ :=
  match conversation_contexts with
  | none => 1
  | some ccs =>
      if ccs.isEmpty || mem_contexts.isEmpty then 1
      else
        let matching_contexts := ccs.dedup.filter (fun c => mem_contexts.contains c)
        if matching_contexts.isEmpty then 1
        else 1 + mkRat 15 100 * matching_contexts.length

/-- `final_score = similarity * importance * relevance_score *
status_multiplier * context_multiplier` (line 313). -/
def final_score (sim : ℚ) (m : UserMemoryDocument)
    (conversation_contexts : Option (List String)) : ℚ :=
  sim * m.importance * m.relevance_score * status_multiplier m.status *
    context_multiplier conversation_contexts m.contexts

/-- Python truthiness of `memory.embedding and len(memory.embedding) > 0`. -/
def hasEmbedding (m : UserMemoryDocument) : Bool :=
  match m.embedding with
  | none => false
  | some v => !v.isEmpty

/-- The score attached to a candidate: semantic similarity when it has an
embedding, keyword relevance otherwise (both then boosted identically). -/
def memory_score (simOf kwOf : UserMemoryDocument → ℚ)
    (conversation_contexts : Option (List String)) (m : UserMemoryDocument) : ℚ :=
  if hasEmbedding m then final_score (simOf m) m conversation_contexts
  else final_score (kwOf m) m conversation_contexts

/-- `MemoryService.get_relevant_memories`: filter (owner, importance ≥
threshold, status ≠ rejected), score, stable descending sort by final
score, take the top `limit`. -/
def get_relevant_memories (store : List UserMemoryDocument) (user_id : String)
    (simOf kwOf : UserMemoryDocument → ℚ) (limit : Nat) (min_importance : ℚ)
    (conversation_contexts : Option (List String)) : List UserMemoryDocument :=
  let all_memories := store.filter (fun m =>
    m.user_id = user_id && decide (min_importance ≤ m.importance) &&
    !(m.status = "rejected"))
  let scored_memories := all_memories.map (fun m =>
    (m, memory_score simOf kwOf conversation_contexts m))
  let sorted := stableSortDesc (geByKey (fun t => t.2)) scored_memories
  (sorted.take limit).map (fun t => t.1)

/-! ### `MemoryService._auto_link_related_memories` (memory_service.py 1254-1330) -/

/-- Python truthiness of `not mem.id` for an optional id string. -/
def pyIdFalsy (o : Option String) : Bool :=
  match o with
  | none => true
  | some s => s.isEmpty

/-- The existing-memory query of `_auto_link_related_memories` (lines
1270-1273): every memory of the user whose id is not among the new batch's
ids.  The filter has no status condition. -/
def auto_link_candidates (store : List UserMemoryDocument) (user_id : String)
    (new_memory_ids : List String) : List UserMemoryDocument :=
  store.filter (fun m =>
    m.user_id = user_id &&
    (match m.id with
     | some i => !(new_memory_ids.contains i)
     | none => true))

/-- A relationship produced by auto-linking (the arguments of the
`link_memories` call). -/
structure MemoryLink where
  source : String
  target : String
  type : String
  strength : ℚ
deriving Repr, DecidableEq

/-- The inner loop of `_auto_link_related_memories` over the existing
memories for one new memory: skip entries without embedding or id, at
similarity ≥ 0.90 link `similar_to`, at ≥ 0.75 link `relates_to`, stop
once 5 links were made. -/
def auto_link_scan (simf : UserMemoryDocument → UserMemoryDocument → ℚ)
    (new_mem : UserMemoryDocument) :
    List UserMemoryDocument → Nat → List MemoryLink
  | [], _ => []
  | e :: rest, related_found =>
      if !(hasEmbedding e) || pyIdFalsy e.id then
        auto_link_scan simf new_mem rest related_found
      else
        let similarity := simf new_mem e
        if decide (mkRat 90 100 ≤ similarity) then
          let l : MemoryLink :=
            ⟨new_mem.id.getD "", e.id.getD "", "similar_to", similarity⟩
          if 5 ≤ related_found + 1 then [l]
          else l :: auto_link_scan simf new_mem rest (related_found + 1)
        else if decide (mkRat 75 100 ≤ similarity) then
          let l : MemoryLink :=
            ⟨new_mem.id.getD "", e.id.getD "", "relates_to", similarity⟩
          if 5 ≤ related_found + 1 then [l]
          else l :: auto_link_scan simf new_mem rest (related_found + 1)
        else
          if 5 ≤ related_found then []
          else auto_link_scan simf new_mem rest related_found

/-- `MemoryService._auto_link_related_memories(user_id, new_memories)`,
returning the list of created links; `simf` abstracts
`cosine_similarity` of the two embeddings. -/
def auto_link_related_memories (store : List UserMemoryDocument)
    (user_id : String) (simf : UserMemoryDocument → UserMemoryDocument → ℚ)
    (new_memories : List UserMemoryDocument) : List MemoryLink :=
  let new_memory_ids :=
    (new_memories.filterMap (fun m => m.id)).filter (fun s => !s.isEmpty)
  let existing := auto_link_candidates store user_id new_memory_ids
  ((new_memories.filter (fun nm => hasEmbedding nm && !(pyIdFalsy nm.id))).map
    (fun nm => auto_link_scan simf nm existing 0)).flatten

/-! ### `MemoryService.consolidate_memories` (memory_service.py 1657-1771) -/

/-- The fetch filter: id among `memory_ids` and owned by the user. -/
def consolidationPred (memory_ids : List String) (user_id : String)
    (m : UserMemoryDocument) : Bool :=
  (match m.id with
   | some i => memory_ids.contains i
   | none => false) && m.user_id = user_id

/-- Python tuple order `(importance, confidence)`: lexicographic ≤ on pairs. -/
def pairLe (p q : ℚ × ℚ) : Bool :=
  decide (p.1 < q.1) || (decide (p.1 = q.1) && decide (p.2 ≤ q.2))

/-- The fetched records sorted by `(importance, confidence)` descending
(lines 1682-1694); the sort is a permutation of the matched records. -/
def consolidationInputs (store : List UserMemoryDocument) (user_id : String)
    (memory_ids : List String) : List UserMemoryDocument :=
  stableSortDesc
    (fun a b => pairLe (b.importance, b.confidence) (a.importance, a.confidence))
    (store.filter (consolidationPred memory_ids user_id))

/-- `set.update` accumulation, determinised as an append of unseen elements
(only the membership of the result is ever used). -/
def dedupAppend (acc : List String) (ts : List String) : List String :=
  acc ++ ts.filter (fun t => !(acc.contains t))

/-- `MemoryService.consolidate_memories(user_id, memory_ids,
consolidated_content)`: `embed` abstracts embedding generation, `new_id`
the id minted by the insert, `now` the current time.  Returns the
consolidated record and the collection after the call, or `none` where the
source returns `None` without inserting. -/
def consolidate_memories (embed : String → List ℚ)
    (store : List UserMemoryDocument) (user_id : String)
    (memory_ids : List String) (consolidated_content : Option String)
    (new_id : String) (now : ℤ) :
    Option (UserMemoryDocument × List UserMemoryDocument) :=
  if memory_ids.length < 2 then none
  else
    let memories := consolidationInputs store user_id memory_ids
    if memories.length < 2 then none
    else
      match memories with
      | [] => none
      | base_memory :: _ =>
          let contents := memories.map (fun m => m.content)
          let generated := "Consolidated: " ++ String.intercalate "; " contents
          let content :=
            match consolidated_content with
            | some c => if c.isEmpty then generated else c
            | none => generated
          let all_tags := memories.foldl (fun acc m => dedupAppend acc m.tags) []
          let all_contexts := memories.foldl (fun acc m => dedupAppend acc m.contexts) []
          let max_importance := memories.foldl (fun acc m => max acc m.importance) 0
          let avg_confidence :=
            (memories.foldl (fun acc m => acc + m.confidence) 0) / (memories.length : ℚ)
          let consolidated_embedding := embed content
          let consolidated_memory : UserMemoryDocument := { baseDoc with
            id := some new_id, user_id := user_id, content := content,
            memory_type := base_memory.memory_type,
            importance := min (max_importance + mkRat 1 10) 1,
            confidence := avg_confidence,
            tags := all_tags, contexts := all_contexts,
            category := base_memory.category,
            embedding := some consolidated_embedding,
            extraction_method := "consolidation",
            status := "confirmed",
            is_consolidated := true,
            consolidation_count := memories.length,
            consolidated_from := memory_ids,
            created_at := now }
          let inserted := store ++ [consolidated_memory]
          let superseded_ids := memories.filterMap (fun m => m.id)
          let final := inserted.map (fun m =>
            match m.id with
            | some i =>
                if superseded_ids.contains i then
                  { m with superseded_by := some new_id,
                           relevance_score := mkRat 1 10 }
                else m
            | none => m)
          some (consolidated_memory, final)

/-! ### `MemoryService.get_memory_graph` (memory_service.py 1332-1425)

The breadth-first traversal, with an explicit fuel argument; `none` stands
for non-termination (fuel exhausted with work remaining).  The termination
theorem shows fuel `unvisitedWeight + 2` always suffices. -/

/-- A node of the returned graph structure. -/
structure GraphNode where
  id : String
  content : String
  type : String
  importance : ℚ
  depth : Nat
deriving Repr, DecidableEq

/-- An edge of the returned graph structure. -/
structure GraphEdge where
  source : String
  target : String
  type : String
  strength : ℚ
deriving Repr, DecidableEq

/-- `find_one({"_id": ObjectId(memory_id), "user_id": user_id})`. -/
def findMemory (store : List UserMemoryDocument) (user_id memory_id : String) :
    Option UserMemoryDocument :=
  store.find? (fun m => m.id = some memory_id && m.user_id = user_id)

/-- A record counts towards the termination measure while its id has not
been visited. -/
def bfsUnvisited (user_id : String) (visited : List String)
    (m : UserMemoryDocument) : Bool :=
  m.user_id = user_id &&
  (match m.id with
   | some i => !(visited.contains i)
   | none => false)

/-- Termination measure helper: total weight of the user's not-yet-visited
records (one unit each, plus one per relationship entry). -/
def unvisitedWeight (store : List UserMemoryDocument) (user_id : String)
    (visited : List String) : Nat :=
  ((store.filter (bfsUnvisited user_id visited)).map
    (fun m => m.relationships.length + 1)).sum

/-- The `while queue:` loop of `get_memory_graph`: pop, skip visited or
too-deep entries, mark visited, skip silently when the record no longer
exists, otherwise append the node, append all its edges, and enqueue
unvisited targets one level deeper. -/
def bfs_loop (store : List UserMemoryDocument) (user_id : String)
    (max_depth : Nat) :
    Nat → List String → List GraphNode → List GraphEdge →
    List (String × Nat) → Option (List GraphNode × List GraphEdge)
  | _, _, nodes, edges, [] => some (nodes, edges)
  | 0, _, _, _, _ :: _ => none
  | fuel + 1, visited, nodes, edges, (current_id, depth) :: queue =>
      if visited.contains current_id || decide (max_depth < depth) then
        bfs_loop store user_id max_depth fuel visited nodes edges queue
      else
        let visited1 := current_id :: visited
        match findMemory store user_id current_id with
        | none => bfs_loop store user_id max_depth fuel visited1 nodes edges queue
        | some mem_doc =>
            let nodes1 := nodes ++
              [⟨current_id, mem_doc.content, mem_doc.memory_type,
                mem_doc.importance, depth⟩]
            let edges1 := edges ++ mem_doc.relationships.map (fun r =>
              ⟨current_id, r.memory_id, r.type, r.strength⟩)
            let queue1 := queue ++ (mem_doc.relationships.filter (fun r =>
              !(visited1.contains r.memory_id))).map (fun r => (r.memory_id, depth + 1))
            bfs_loop store user_id max_depth fuel visited1 nodes1 edges1 queue1

/-- `MemoryService.get_memory_graph(user_id, memory_id, max_depth)`:
missing root returns the empty graph; otherwise the BFS runs with enough
fuel for every reachable record. -/
def get_memory_graph (store : List UserMemoryDocument)
    (user_id memory_id : String) (max_depth : Nat) :
    Option (List GraphNode × List GraphEdge) :=
  match findMemory store user_id memory_id with
  | none => some ([], [])
  | some _ =>
      bfs_loop store user_id max_depth (unvisitedWeight store user_id [] + 2)
        [] [] [] [(memory_id, 0)]

/-! ### Concrete documents used by the counterexamples and witnesses -/

/-- The state of the counterexample memory after one confirm. -/
def confirmedOnce : UserMemoryDocument :=
  { baseDoc with
    status := "confirmed", relevance_score := mkRat 7 10 }

/-- The state of the counterexample memory after two confirms. -/
def confirmedTwice : UserMemoryDocument :=
  { baseDoc with
    status := "confirmed", relevance_score := mkRat 9 10 }

/-- The tie candidate that was created first (created_at 0). -/
def tieOlder : UserMemoryDocument :=
  { baseDoc with
    id := some "older", user_id := "u", embedding := some [1], created_at := 0 }

/-- The tie candidate that was created later (created_at 5). -/
def tieNewer : UserMemoryDocument :=
  { baseDoc with
    id := some "newer", user_id := "u", embedding := some [1], created_at := 5 }

/-- First consolidation input for the witness. -/
def consA : UserMemoryDocument :=
  { baseDoc with
    id := some "1", user_id := "u", content := "a", tags := ["x"] }

/-- Second consolidation input for the witness. -/
def consB : UserMemoryDocument :=
  { baseDoc with
    id := some "2", user_id := "u", content := "b", tags := ["y"],
    importance := mkRat 3 10, confidence := mkRat 1 2 }

/-! ## Helper lemmas -/

theorem sortInsert_perm (ge : α → α → Bool) (x : α) :
    ∀ l : List α, List.Perm (sortInsert ge x l) (x :: l) := by
  intro l
  induction l with
  | nil => simp [sortInsert]
  | cons y ys ih =>
      by_cases h : ge x y = true
      · simp [sortInsert, h]
      · simp only [sortInsert, h, if_false]
        exact (ih.cons y).trans (List.Perm.swap x y ys)

theorem stableSortDesc_perm (ge : α → α → Bool) :
    ∀ l : List α, List.Perm (stableSortDesc ge l) l := by
  intro l
  induction l with
  | nil => simp [stableSortDesc]
  | cons x xs ih =>
      exact (sortInsert_perm ge x (stableSortDesc ge xs)).trans (ih.cons x)

theorem mem_stableSortDesc (ge : α → α → Bool) (l : List α) (a : α) :
    a ∈ stableSortDesc ge l ↔ a ∈ l :=
  (stableSortDesc_perm ge l).mem_iff

theorem pairwise_sortInsert (key : α → ℚ) (x : α) (l : List α)
    (hl : l.Pairwise (fun a b => key b ≤ key a)) :
    (sortInsert (geByKey key) x l).Pairwise (fun a b => key b ≤ key a) := by
  induction l with
  | nil => simp [sortInsert]
  | cons y ys ih =>
      rcases List.pairwise_cons.mp hl with ⟨hy, hys⟩
      by_cases h : geByKey key x y = true
      · have hxy : key y ≤ key x := of_decide_eq_true h
        simp only [sortInsert, h, if_true]
        refine List.pairwise_cons.mpr ⟨?_, hl⟩
        intro z hz
        rcases List.mem_cons.mp hz with hz | hz
        · exact hz ▸ hxy
        · exact le_trans (hy z hz) hxy
      · have hyx : key x ≤ key y := by
          have hn : ¬ key y ≤ key x := by
            intro hc
            exact h (decide_eq_true hc)
          exact le_of_lt (lt_of_not_le hn)
        simp only [sortInsert, h, if_false]
        refine List.pairwise_cons.mpr ⟨?_, ih hys⟩
        intro z hz
        rcases List.mem_cons.mp ((sortInsert_perm (geByKey key) x ys).mem_iff.mp hz) with hz | hz
        · exact hz ▸ hyx
        · exact hy z hz

theorem pairwise_stableSortDesc (key : α → ℚ) (l : List α) :
    (stableSortDesc (geByKey key) l).Pairwise (fun a b => key b ≤ key a) := by
  induction l with
  | nil => simp [stableSortDesc]
  | cons x xs ih => exact pairwise_sortInsert key x _ ih

theorem sumSq_replicate_zero (d : Nat) : sumSq (List.replicate d 0) = 0 := by
  simp [sumSq, List.map_replicate, List.sum_replicate]

theorem npNorm_replicate_zero (d : Nat) : npNorm (List.replicate d 0) = 0 := by
  simp [npNorm, sumSq_replicate_zero]

/-! ## Claim theorems -/

/-- C2 (code bug): evaluation of `_check_contradiction` at the spec's
scenario.  The spec requires the pair ("Prefers Python for backend",
"Dislikes Python for backend") at similarity in [0.70, 0.85) to be flagged
as conflicting; the code returns `False` for it, because the raw-string
patterns (`r"\\bprefers?\\b"` and friends) only match texts containing a
literal backslash.  The non-antonym pair is (correctly) not flagged, and
the third conjunct exhibits that the compiled pattern does match once the
text itself contains the literal `\bprefers\b`. -/
theorem C2_check_contradiction_eval :
    check_contradiction "Prefers Python for backend" "Dislikes Python for backend" = false ∧
    check_contradiction "Likes Python" "Dislikes JavaScript" = false ∧
    re_search ["\\bprefer\\b", "\\bprefers\\b"] "user \\bprefers\\b python" = true := by
  decide

/-- C3 counterexample: with the default `validate=True` (the value every
call in `memory_service.py` uses), embedding the empty text raises
`ValueError` instead of returning the 384-dimensional zero vector the
claim promises. -/
theorem C3_counterexample :
    generate_embedding (fun _ => Except.ok []) 384 "" true
      = Except.error (PyErr.valueError "Cannot generate embedding for empty text") ∧
    generate_embedding (fun _ => Except.ok []) 384 "" true
      ≠ Except.ok (List.replicate 384 (0 : ℚ)) := by
  constructor
  · rfl
  · intro h
    exact Except.noConfusion h

/-- C3 amended: with `validate=False`, embedding an empty or
whitespace-only text returns the all-zero vector of the embedder's fixed
dimension without raising; and the cosine similarity of a zero vector with
any vector is 0 (no exception, no NaN).  With the default `validate=True`
the empty-text case raises `ValueError` (see the counterexample). -/
theorem C3_amended (encode : String → Except PyErr (List ℚ)) (dim : Nat)
    (text : String) (h : pyBlank text = true) (v : List ℚ) (d : Nat) :
    generate_embedding encode dim text false = Except.ok (List.replicate dim 0) ∧
    cosine_similarity (List.replicate d 0) v = 0 ∧
    cosine_similarity v (List.replicate d 0) = 0 := by
  refine ⟨?_, ?_, ?_⟩
  · simp [generate_embedding, h]
  · unfold cosine_similarity
    split_ifs with h1 h2
    · rfl
    · rfl
    · exact absurd (Or.inl (npNorm_replicate_zero d)) h2
  · unfold cosine_similarity
    split_ifs with h1 h2
    · rfl
    · rfl
    · exact absurd (Or.inr (npNorm_replicate_zero d)) h2

/-- C3 witness: the amended theorem applied at the empty text, dimension
384, and the vector [1] against the 3-dimensional zero vector. -/
theorem C3_amended_witness :
    pyBlank "" = true ∧
    (generate_embedding (fun _ => Except.ok []) 384 "" false
        = Except.ok (List.replicate 384 0) ∧
     cosine_similarity (List.replicate 3 0) [1] = 0 ∧
     cosine_similarity [1] (List.replicate 3 0) = 0) :=
  ⟨by decide, C3_amended (fun _ => Except.ok []) 384 "" (by decide) [1] 3⟩

/-- C1 counterexample: a request whose content is empty passes the capacity
check (the store is empty) but raises `ValueError` from the embedding
validation, not the `NameError` the claim asserts for *every* request. -/
theorem C1_counterexample :
    create_memory (fun _ => Except.ok (List.replicate 384 0)) [] "u" "" false
      = (Except.error (PyErr.valueError "Cannot generate embedding for empty text"), []) ∧
    (create_memory (fun _ => Except.ok (List.replicate 384 0)) [] "u" "" false).1
      ≠ Except.error (PyErr.nameError "mem_data") := by
  decide

/-- C1 amended: whenever the capacity check passes and the embedding step
succeeds (non-blank content, encoder returns a 384-vector), `create_memory`
raises `NameError` on the undefined name `mem_data` referenced by the
document constructor, before any insert; and in every case whatsoever the
call raises some exception and leaves the collection unchanged (the
construction never succeeds, so no document is ever inserted and the call
never returns normally). -/
theorem C1_amended (encode : String → Except PyErr (List ℚ))
    (store : List UserMemoryDocument) (user_id content : String) (skip : Bool)
    (v : List ℚ)
    (hpass : skip = true ∨ (store.filter (fun m => m.user_id = user_id)).length < 2000)
    (hc : pyBlank content = false) (he : encode content = Except.ok v)
    (hv : v.length = 384) :
    create_memory encode store user_id content skip
      = (Except.error (PyErr.nameError "mem_data"), store) ∧
    ∀ (encode2 : String → Except PyErr (List ℚ))
      (store2 : List UserMemoryDocument) (uid2 content2 : String) (skip2 : Bool),
      ∃ e, create_memory encode2 store2 uid2 content2 skip2
        = (Except.error e, store2) := by
  constructor
  · have hcap : (!skip && decide (2000 ≤
        (store.filter (fun m => m.user_id = user_id)).length)) = false := by
      rcases hpass with h | h
      · simp [h]
      · simp [Nat.not_le.mpr h]
    have hne : v.isEmpty = false := by
      cases v with
      | nil => simp at hv
      | cons a t => rfl
    have hfu : create_memory_first_undefined = some "mem_data" := by decide
    simp [create_memory, hcap, generate_embedding, hc, he, hne, hv, hfu]
  · intro encode2 store2 uid2 content2 skip2
    have hfu : create_memory_first_undefined = some "mem_data" := by decide
    unfold create_memory
    by_cases hcap : (!skip2 && decide (2000 ≤
        (store2.filter (fun m => m.user_id = uid2)).length)) = true
    · exact ⟨PyErr.valueError capacityErrorMsg, by simp [hcap]⟩
    · simp only [Bool.not_eq_true] at hcap
      cases hemb : generate_embedding encode2 384 content2 true with
      | error e => exact ⟨e, by simp [hcap, hemb]⟩
      | ok w =>
          exact ⟨PyErr.nameError "mem_data", by simp [hcap, hemb, hfu]⟩

/-- C1 witness: the amended theorem at a non-blank content and a
well-formed encoder. -/
theorem C1_amended_witness :
    pyBlank "hello" = false ∧
    create_memory (fun _ => Except.ok (List.replicate 384 (0 : ℚ))) [] "u" "hello" false
      = (Except.error (PyErr.nameError "mem_data"), []) :=
  ⟨by decide,
   (C1_amended (fun _ => Except.ok (List.replicate 384 (0 : ℚ))) [] "u" "hello" false
      (List.replicate 384 0) (Or.inr (by decide)) (by decide) rfl
      (by rw [List.length_replicate])).1⟩

/-- C5: when the user already holds at least 2000 memories and the limit
check is enabled, `create_memory` raises the capacity `ValueError` before
any other step and the collection is unchanged (no insert happens). -/
theorem C5_capacity_enforced (encode : String → Except PyErr (List ℚ))
    (store : List UserMemoryDocument) (user_id content : String)
    (h : 2000 ≤ (store.filter (fun m => m.user_id = user_id)).length) :
    create_memory encode store user_id content false
      = (Except.error (PyErr.valueError capacityErrorMsg), store) := by
  simp [create_memory, h]

/-- C5 witness: a user with exactly 2000 memories is refused and the
collection is unchanged. -/
theorem C5_capacity_witness :
    create_memory (fun _ => Except.ok [])
        (List.replicate 2000 { baseDoc with user_id := "u" }) "u" "hi" false
      = (Except.error (PyErr.valueError capacityErrorMsg),
         List.replicate 2000 { baseDoc with user_id := "u" }) := by
  refine C5_capacity_enforced _ _ _ _ ?_
  have hall : (List.replicate 2000 { baseDoc with user_id := "u" }).filter
      (fun m => m.user_id = "u") = List.replicate 2000 { baseDoc with user_id := "u" } := by
    apply List.filter_eq_self.mpr
    intro a ha
    rw [List.eq_of_mem_replicate ha]
    decide
  rw [hall, List.length_replicate]


unseal Rat.add in
/-- C7 counterexample: confirming twice from relevance_score 0.5 yields 0.9,
not the 0.7 that a single confirm produces, so the second confirm is not a
no-op on the memory's state. -/
theorem C7_counterexample :
    verify_memory_apply { baseDoc with relevance_score := mkRat 1 2 } "confirm"
        none none none (fun _ => []) = some confirmedOnce ∧
    verify_memory_apply confirmedOnce "confirm" none none none (fun _ => [])
      = some confirmedTwice ∧
    confirmedTwice ≠ confirmedOnce := by
  decide

/-- C7 amended: a second confirm never errors, and keeps status
`confirmed` and confidence 1.0 (these are idempotent); but it applies the
relevance bump again, `min(relevance+0.2, 1.0)`, so the state after the
second confirm equals the state after the first exactly when the first
confirm already left relevance_score at 1.0. -/
theorem C7_amended (m m1 m2 : UserMemoryDocument) (embed : String → List ℚ)
    (h1 : verify_memory_apply m "confirm" none none none embed = some m1)
    (h2 : verify_memory_apply m1 "confirm" none none none embed = some m2) :
    m2.status = m1.status ∧ m2.confidence = m1.confidence ∧
    m2.relevance_score = min (m1.relevance_score + mkRat 2 10) 1 ∧
    (1 ≤ m1.relevance_score → m2 = m1) := by
  have e1 : m1 =
      { m with
        status := "confirmed", confidence := 1,
        relevance_score := min (m.relevance_score + mkRat 2 10) 1 } := by
    simp [verify_memory_apply] at h1
    exact h1.symm
  have e2 : m2 =
      { m1 with
        status := "confirmed", confidence := 1,
        relevance_score := min (m1.relevance_score + mkRat 2 10) 1 } := by
    simp [verify_memory_apply] at h2
    exact h2.symm
  subst e1
  subst e2
  refine ⟨rfl, rfl, rfl, ?_⟩
  intro h
  have hmin : min (m.relevance_score + mkRat 2 10) 1 = 1 :=
    le_antisymm (min_le_right _ _) h
  have h02 : (0 : ℚ) ≤ mkRat 2 10 := by norm_num
  have hmin2 : min ((1 : ℚ) + mkRat 2 10) 1 = 1 :=
    min_eq_right (by linarith)
  simp [hmin, hmin2]

unseal Rat.add in
/-- C7 witness: the amended theorem on the concrete double-confirm run of
the counterexample's memory. -/
theorem C7_amended_witness :
    confirmedTwice.status = confirmedOnce.status ∧
    confirmedTwice.confidence = confirmedOnce.confidence ∧
    confirmedTwice.relevance_score = min (confirmedOnce.relevance_score + mkRat 2 10) 1 ∧
    (1 ≤ confirmedOnce.relevance_score → confirmedTwice = confirmedOnce) :=
  C7_amended { baseDoc with relevance_score := mkRat 1 2 }
    confirmedOnce confirmedTwice (fun _ => []) (by decide) (by decide)

unseal Rat.sub in
/-- C8 counterexample: the decay update has no floor, so a decay rate of
0.5 applied to an eligible memory with relevance_score 0.2 leaves the
stored score at -0.3, below 0 — the claim fails for that decay rate. -/
theorem C8_counterexample :
    (decay_memories
        [{ baseDoc with
            user_id := "u", relevance_score := mkRat 2 10 }] "u" (mkRat 5 10) 100).map
      (fun m => m.relevance_score) = [-(mkRat 3 10)] ∧
    ¬ ((0 : ℚ) ≤ -(mkRat 3 10)) := by
  decide

/-- C8 amended: for decay rates in [0, 0.1] — which includes the default
rate 0.01 — a decay pass subtracts the rate exactly from the eligible
memories (owner match, not accessed in the 30-day window or never
accessed, relevance_score > 0.1), leaves every other memory untouched, and
keeps every relevance_score within [0,1].  For rates above 0.1 the update
has no floor and can push a score below 0 (see the counterexample). -/
theorem C8_amended (store : List UserMemoryDocument) (user_id : String)
    (decay_rate : ℚ) (now : ℤ)
    (hr0 : 0 ≤ decay_rate) (hr1 : decay_rate ≤ mkRat 1 10)
    (hs : ∀ m ∈ store, 0 ≤ m.relevance_score ∧ m.relevance_score ≤ 1) :
    (decay_memories store user_id decay_rate now).length = store.length ∧
    (∀ m2 ∈ decay_memories store user_id decay_rate now,
      0 ≤ m2.relevance_score ∧ m2.relevance_score ≤ 1) ∧
    (∀ i (h : i < store.length) (h2 : i < (decay_memories store user_id decay_rate now).length),
      (decayEligible user_id (now - 30) (store.get ⟨i, h⟩) = true →
        (decay_memories store user_id decay_rate now).get ⟨i, h2⟩ =
          { store.get ⟨i, h⟩ with
            relevance_score := (store.get ⟨i, h⟩).relevance_score - decay_rate }) ∧
      (decayEligible user_id (now - 30) (store.get ⟨i, h⟩) = false →
        (decay_memories store user_id decay_rate now).get ⟨i, h2⟩ = store.get ⟨i, h⟩)) := by
  have h110 : (mkRat 1 10 : ℚ) = 1 / 10 := by norm_num
  refine ⟨by simp [decay_memories], ?_, ?_⟩
  · intro m2 hm2
    simp only [decay_memories, List.mem_map] at hm2
    obtain ⟨m, hm, rfl⟩ := hm2
    obtain ⟨hm0, hm1⟩ := hs m hm
    by_cases helig : decayEligible user_id (now - 30) m = true
    · have hgt : mkRat 1 10 < m.relevance_score := by
        have h3 := (Bool.and_eq_true _ _).mp helig
        exact of_decide_eq_true h3.2
      rw [h110] at hgt
      rw [h110] at hr1
      simp only [helig, if_true]
      constructor
      · linarith
      · linarith
    · simp only [Bool.not_eq_true] at helig
      simp only [helig, Bool.false_eq_true, if_false]
      exact ⟨hm0, hm1⟩
  · intro i h h2
    constructor
    · intro helig
      rw [List.get_eq_getElem] at helig
      simp only [decay_memories, List.get_eq_getElem, List.getElem_map, helig, if_true]
    · intro helig
      rw [List.get_eq_getElem] at helig
      simp only [decay_memories, List.get_eq_getElem, List.getElem_map, helig,
        Bool.false_eq_true, if_false]

unseal Rat.sub in
/-- C8 witness: a single eligible memory decayed at the default rate 0.01
stays within bounds. -/
theorem C8_amended_witness :
    (0 : ℚ) ≤ mkRat 1 100 ∧ mkRat 1 100 ≤ mkRat 1 10 ∧
    (∀ m2 ∈ decay_memories
        [{ baseDoc with user_id := "u" }] "u" (mkRat 1 100) 100,
      0 ≤ m2.relevance_score ∧ m2.relevance_score ≤ 1) :=
  ⟨by norm_num, by norm_num,
   (C8_amended [{ baseDoc with user_id := "u" }] "u" (mkRat 1 100) 100
      (by norm_num) (by norm_num) (by decide)).2.1⟩

/-- Generic form of the retrieval pipeline's ordering guarantee: scoring a
candidate list with `f`, stable-sorting descending by the score and taking
a prefix yields a list that is pairwise descending in `f`. -/
theorem pairwise_scored_pipeline (f : UserMemoryDocument → ℚ)
    (cands : List UserMemoryDocument) (limit : Nat) :
    (((stableSortDesc (geByKey (fun t => t.2))
        (cands.map (fun m => (m, f m)))).take limit).map (fun t => t.1)).Pairwise
      (fun a b => f b ≤ f a) := by
  have hsorted := pairwise_stableSortDesc (fun t : UserMemoryDocument × ℚ => t.2)
    (cands.map (fun m => (m, f m)))
  have hmem : ∀ p ∈ stableSortDesc (geByKey (fun t : UserMemoryDocument × ℚ => t.2))
      (cands.map (fun m => (m, f m))), p.2 = f p.1 := by
    intro p hp
    rcases List.mem_map.mp ((mem_stableSortDesc _ _ p).mp hp) with ⟨m, hm, rfl⟩
    rfl
  have h2 : (stableSortDesc (geByKey (fun t : UserMemoryDocument × ℚ => t.2))
      (cands.map (fun m => (m, f m)))).Pairwise (fun p q => f q.1 ≤ f p.1) := by
    refine hsorted.imp_of_mem ?_
    intro a b ha hb hr
    rw [← hmem a ha, ← hmem b hb]
    exact hr
  have h3 := List.Pairwise.sublist (List.take_sublist limit _) h2
  exact List.pairwise_map.mpr h3

unseal Rat.mul in
/-- C9 counterexample: two candidates with exactly equal final scores come
back in candidate order — the earlier-created memory first — because
Python's sort is stable and no created_at tie-break exists; the claim
demands the most recently created memory first. -/
theorem C9_counterexample :
    get_relevant_memories [tieOlder, tieNewer] "u" (fun _ => 1) (fun _ => 0) 5
        (mkRat 3 10) none = [tieOlder, tieNewer] ∧
    memory_score (fun _ => 1) (fun _ => 0) none tieOlder
      = memory_score (fun _ => 1) (fun _ => 0) none tieNewer ∧
    tieOlder.created_at < tieNewer.created_at := by
  decide

/-- C9 amended: the returned records are sorted descending by
`final_score = similarity × importance × relevance_score ×
status_multiplier × context_multiplier`; candidates with equal final score
keep their relative order in the candidate list (stable sort) — they are
not reordered by created_at. -/
theorem C9_amended (store : List UserMemoryDocument) (user_id : String)
    (simOf kwOf : UserMemoryDocument → ℚ) (limit : Nat) (min_importance : ℚ)
    (conversation_contexts : Option (List String)) :
    (get_relevant_memories store user_id simOf kwOf limit min_importance
        conversation_contexts).Pairwise
      (fun a b => memory_score simOf kwOf conversation_contexts b
        ≤ memory_score simOf kwOf conversation_contexts a) := by
  simp only [get_relevant_memories]
  exact pairwise_scored_pipeline (memory_score simOf kwOf conversation_contexts) _ limit

/-- C4 counterexample: a rejected memory is part of the auto-link
comparison set (the query excludes only the new batch's ids, not the
rejected status) and even gets linked to the new memory at similarity
0.95. -/
theorem C4_counterexample :
    ({ baseDoc with
        id := some "R", user_id := "u", embedding := some [1],
        status := "rejected" } : UserMemoryDocument)
      ∈ auto_link_candidates
          [{ baseDoc with
              id := some "R", user_id := "u", embedding := some [1],
              status := "rejected" }] "u" ["N"] ∧
    auto_link_related_memories
        [{ baseDoc with
            id := some "R", user_id := "u", embedding := some [1],
            status := "rejected" }] "u" (fun _ _ => mkRat 95 100)
        [{ baseDoc with id := some "N", user_id := "u", embedding := some [1] }]
      = [⟨"N", "R", "similar_to", mkRat 95 100⟩] := by
  decide

/-- C4 amended: `get_relevant_memories` never returns a rejected memory
(the query filter excludes them); but the auto-link comparison set after
an extraction batch excludes only the new batch's own ids — any other
memory of the user, rejected or not, is part of the similarity
comparisons. -/
theorem C4_amended (store : List UserMemoryDocument) (user_id : String)
    (simOf kwOf : UserMemoryDocument → ℚ) (limit : Nat) (min_importance : ℚ)
    (conversation_contexts : Option (List String)) (new_ids : List String)
    (m : UserMemoryDocument) :
    (m ∈ get_relevant_memories store user_id simOf kwOf limit min_importance
        conversation_contexts → m.status ≠ "rejected") ∧
    (m ∈ store → m.user_id = user_id →
      (∀ i, m.id = some i → new_ids.contains i = false) →
      m ∈ auto_link_candidates store user_id new_ids) := by
  constructor
  · intro hm
    simp only [get_relevant_memories] at hm
    rcases List.mem_map.mp hm with ⟨p, hp, rfl⟩
    have hp2 := (List.take_subset _ _) hp
    have hp3 := (mem_stableSortDesc _ _ _).mp hp2
    rcases List.mem_map.mp hp3 with ⟨m0, hm0, rfl⟩
    have hpred := List.of_mem_filter hm0
    intro hst
    simp at hpred
    exact hpred.2 hst
  · intro hmem huid hid
    refine List.mem_filter.mpr ⟨hmem, ?_⟩
    cases hi : m.id with
    | none => simp [huid, hi]
    | some i =>
        have h := hid i hi
        simp [huid, hi]
        simpa using h

/-- C4 witness: the amended theorem places a pending memory of the user in
the auto-link comparison set. -/
theorem C4_amended_witness :
    ({ baseDoc with id := some "P", user_id := "u" } : UserMemoryDocument)
      ∈ auto_link_candidates
          [{ baseDoc with id := some "P", user_id := "u" }] "u" ["N"] :=
  (C4_amended [{ baseDoc with id := some "P", user_id := "u" }] "u"
      (fun _ => 0) (fun _ => 0) 5 0 none ["N"]
      { baseDoc with id := some "P", user_id := "u" }).2
    (by decide) (by decide)
    (by
      intro i hi
      have h2 : some "P" = some i := hi
      cases h2
      decide)

/-- Membership in the `set.update` accumulation of consolidation. -/
theorem mem_foldl_dedupAppend (g : UserMemoryDocument → List String) :
    ∀ (l : List UserMemoryDocument) (acc : List String) (t : String),
      (t ∈ l.foldl (fun acc m => dedupAppend acc (g m)) acc ↔
        t ∈ acc ∨ ∃ m ∈ l, t ∈ g m) := by
  intro l
  induction l with
  | nil => intro acc t; simp
  | cons m rest ih =>
      intro acc t
      rw [List.foldl_cons, ih]
      have hd : t ∈ dedupAppend acc (g m) ↔ t ∈ acc ∨ t ∈ g m := by
        unfold dedupAppend
        rw [List.mem_append, List.mem_filter]
        constructor
        · rintro (h | ⟨h, _⟩)
          · exact Or.inl h
          · exact Or.inr h
        · rintro (h | h)
          · exact Or.inl h
          · by_cases ha : t ∈ acc
            · exact Or.inl ha
            · exact Or.inr ⟨h, by simpa using ha⟩
      rw [hd]
      constructor
      · rintro ((h | h) | ⟨m2, hm2, ht⟩)
        · exact Or.inl h
        · exact Or.inr ⟨m, List.mem_cons_self m rest, h⟩
        · exact Or.inr ⟨m2, List.mem_cons_of_mem m hm2, ht⟩
      · rintro (h | ⟨m2, hm2, ht⟩)
        · exact Or.inl (Or.inl h)
        · rcases List.mem_cons.mp hm2 with h2 | h2
          · exact Or.inl (Or.inr (h2 ▸ ht))
          · exact Or.inr ⟨m2, h2, ht⟩

/-- C6: consolidation of at least two same-user memory ids creates a
pre-confirmed record with importance `min(max(inputs)+0.1, 1.0)`,
confidence the arithmetic mean of the inputs', tags and contexts the union
of the inputs', and an embedding regenerated from the new content; every
matched input record is kept (the collection grows by exactly one) and
gets `superseded_by` set to the new record's id and `relevance_score`
forced to 0.1.  Fewer than 2 ids is rejected with no record created. -/
theorem C6_consolidation (embed : String → List ℚ)
    (store : List UserMemoryDocument) (user_id : String)
    (memory_ids : List String) (oc : Option String) (new_id : String) (now : ℤ)
    (h2 : 2 ≤ memory_ids.length)
    (hf : 2 ≤ (store.filter (consolidationPred memory_ids user_id)).length)
    (hfresh : ∀ m ∈ store, m.id ≠ some new_id) :
    (∃ doc final,
      consolidate_memories embed store user_id memory_ids oc new_id now
        = some (doc, final) ∧
      doc.id = some new_id ∧
      doc.status = "confirmed" ∧
      doc.embedding = some (embed doc.content) ∧
      doc.importance = min
        ((store.filter (consolidationPred memory_ids user_id)).foldl
          (fun acc m => max acc m.importance) 0 + mkRat 1 10) 1 ∧
      doc.confidence =
        ((store.filter (consolidationPred memory_ids user_id)).foldl
          (fun acc m => acc + m.confidence) 0) /
        (((store.filter (consolidationPred memory_ids user_id)).length : ℚ)) ∧
      (∀ t, t ∈ doc.tags ↔
        ∃ m2 ∈ store.filter (consolidationPred memory_ids user_id), t ∈ m2.tags) ∧
      (∀ c, c ∈ doc.contexts ↔
        ∃ m2 ∈ store.filter (consolidationPred memory_ids user_id), c ∈ m2.contexts) ∧
      final.length = store.length + 1 ∧
      (∀ m2 ∈ store, consolidationPred memory_ids user_id m2 = true →
        ∃ m3 ∈ final, m3.id = m2.id ∧ m3.superseded_by = some new_id ∧
          m3.relevance_score = mkRat 1 10) ∧
      (∃ m3 ∈ final, m3.id = some new_id ∧ m3.superseded_by = none ∧
        m3.status = "confirmed")) ∧
    (∀ ids2 : List String, ids2.length < 2 →
      consolidate_memories embed store user_id ids2 oc new_id now = none) := by
  constructor
  · have hperm : List.Perm (consolidationInputs store user_id memory_ids)
        (store.filter (consolidationPred memory_ids user_id)) := by
      unfold consolidationInputs
      exact stableSortDesc_perm _ _
    have hlenM : (consolidationInputs store user_id memory_ids).length =
        (store.filter (consolidationPred memory_ids user_id)).length :=
      hperm.length_eq
    rcases hMc : consolidationInputs store user_id memory_ids with _ | ⟨base, tail⟩
    · rw [hMc] at hlenM
      simp at hlenM
      omega
    · rw [hMc] at hperm hlenM
      have hguard1 : ¬ memory_ids.length < 2 := by omega
      have hguard2 : ¬ (base :: tail).length < 2 := by
        rw [hlenM]; omega
      simp only [consolidate_memories, hMc, if_neg hguard1, if_neg hguard2]
      refine ⟨_, _, rfl, rfl, rfl, rfl, ?_, ?_, ?_, ?_, ?_, ?_, ?_⟩
      · show min ((base :: tail).foldl (fun acc m => max acc m.importance) 0 + mkRat 1 10) 1 = _
        rw [hperm.foldl_eq'
          (fun x _ y _ z => by
            rw [max_assoc, max_assoc, max_comm x.importance y.importance]) 0]
      · show ((base :: tail).foldl (fun acc m => acc + m.confidence) 0) /
            (((base :: tail).length : ℚ)) = _
        rw [hperm.foldl_eq' (fun x _ y _ z => add_right_comm z x.confidence y.confidence) 0,
          hlenM]
      · intro t
        show t ∈ (base :: tail).foldl (fun acc m => dedupAppend acc m.tags) [] ↔ _
        rw [mem_foldl_dedupAppend (fun m => m.tags) (base :: tail) [] t]
        simp only [List.not_mem_nil, false_or]
        constructor
        · rintro ⟨m2, hm2, ht⟩
          exact ⟨m2, hperm.mem_iff.mp hm2, ht⟩
        · rintro ⟨m2, hm2, ht⟩
          exact ⟨m2, hperm.mem_iff.mpr hm2, ht⟩
      · intro c
        show c ∈ (base :: tail).foldl (fun acc m => dedupAppend acc m.contexts) [] ↔ _
        rw [mem_foldl_dedupAppend (fun m => m.contexts) (base :: tail) [] c]
        simp only [List.not_mem_nil, false_or]
        constructor
        · rintro ⟨m2, hm2, ht⟩
          exact ⟨m2, hperm.mem_iff.mp hm2, ht⟩
        · rintro ⟨m2, hm2, ht⟩
          exact ⟨m2, hperm.mem_iff.mpr hm2, ht⟩
      · simp
      · intro m2 hm2 hpred
        have hid : ∃ i, m2.id = some i ∧ memory_ids.contains i = true := by
          unfold consolidationPred at hpred
          rcases hmid : m2.id with _ | i
          · rw [hmid] at hpred
            simp at hpred
          · rw [hmid] at hpred
            simp at hpred
            exact ⟨i, rfl, by simpa using hpred.1⟩
        obtain ⟨i, hmi, _⟩ := hid
        have hmF : m2 ∈ store.filter (consolidationPred memory_ids user_id) :=
          List.mem_filter.mpr ⟨hm2, hpred⟩
        have hmM : m2 ∈ (base :: tail) := hperm.mem_iff.mpr hmF
        have hsup : ((base :: tail).filterMap (fun m => m.id)).contains i = true := by
          have : i ∈ (base :: tail).filterMap (fun m => m.id) :=
            List.mem_filterMap.mpr ⟨m2, hmM, hmi⟩
          simpa using this
        refine ⟨{ m2 with
            superseded_by := some new_id, relevance_score := mkRat 1 10 }, ?_, rfl, rfl, rfl⟩
        apply List.mem_map.mpr
        refine ⟨m2, List.mem_append_left _ hm2, ?_⟩
        rw [hmi]
        simp [hsup]
        intro hb ht
        rcases List.mem_cons.mp hmM with h | h
        · exact absurd (h ▸ hmi) hb
        · exact absurd hmi (ht m2 h)
      · have hnotP : ¬ (base.id = some new_id ∨ ∃ a ∈ tail, a.id = some new_id) := by
          rintro (h | ⟨a, ha, hid4⟩)
          · exact hfresh base
              (List.mem_of_mem_filter (hperm.mem_iff.mp (List.mem_cons_self _ _))) h
          · exact hfresh a
              (List.mem_of_mem_filter (hperm.mem_iff.mp (List.mem_cons_of_mem _ ha))) hid4
        refine ⟨_, List.mem_map_of_mem _
          (List.mem_append_right store (List.mem_singleton_self _)), ?_, ?_, ?_⟩
        all_goals simp [hnotP, baseDoc]
  · intro ids2 hlt
    simp [consolidate_memories, hlt]

/-- C6 witness: consolidating the two concrete memories produces a
confirmed record with the fresh id, and that record is itself unmarked. -/
theorem C6_consolidation_witness :
    ∃ doc final,
      consolidate_memories (fun _ => [1]) [consA, consB] "u" ["1", "2"] none "C" 0
        = some (doc, final) ∧
      doc.id = some "C" ∧ doc.status = "confirmed" ∧
      (∃ m3 ∈ final, m3.id = some "C" ∧ m3.superseded_by = none ∧
        m3.status = "confirmed") := by
  obtain ⟨doc, final, hA, hB, hC, hD, hE, hF, hG, hH, hI, hJ, hK⟩ :=
    (C6_consolidation (fun _ => [1]) [consA, consB] "u" ["1", "2"] none "C" 0
      (by decide) (by decide) (by decide)).1
  exact ⟨doc, final, hA, hB, hC, hK⟩

theorem bfsUnvisited_cons (user_id c : String) (visited : List String)
    (m : UserMemoryDocument) (h : bfsUnvisited user_id (c :: visited) m = true) :
    bfsUnvisited user_id visited m = true := by
  unfold bfsUnvisited at h ⊢
  rcases hid : m.id with _ | i
  · rw [hid] at h
    simp at h
  · rw [hid] at h
    simp only [Bool.and_eq_true] at h ⊢
    refine ⟨h.1, ?_⟩
    have h2 := h.2
    simp only [List.contains_cons] at h2
    simp only [Bool.not_eq_eq_eq_not, Bool.not_true, Bool.or_eq_false_iff] at h2
    simpa using h2.2

theorem unvisitedWeight_cons_le (store : List UserMemoryDocument)
    (user_id c : String) (visited : List String) :
    unvisitedWeight store user_id (c :: visited)
      ≤ unvisitedWeight store user_id visited := by
  unfold unvisitedWeight
  induction store with
  | nil => simp
  | cons m t ih =>
      simp only [List.filter_cons]
      by_cases h1 : bfsUnvisited user_id (c :: visited) m = true
      · have h2 := bfsUnvisited_cons user_id c visited m h1
        simp only [h1, h2, if_true, List.map_cons, List.sum_cons]
        omega
      · simp only [Bool.not_eq_true] at h1
        by_cases h2 : bfsUnvisited user_id visited m = true
        · simp only [h1, h2, Bool.false_eq_true, if_false, if_true,
            List.map_cons, List.sum_cons]
          omega
        · simp only [Bool.not_eq_true] at h2
          simp only [h1, h2, Bool.false_eq_true, if_false]
          exact ih

theorem unvisitedWeight_find_drop (store : List UserMemoryDocument)
    (user_id c : String) (visited : List String) (mem : UserMemoryDocument)
    (hc : visited.contains c = false)
    (hfind : store.find? (fun m => m.id = some c && m.user_id = user_id) = some mem) :
    unvisitedWeight store user_id (c :: visited) + mem.relationships.length + 1
      ≤ unvisitedWeight store user_id visited := by
  induction store with
  | nil => simp at hfind
  | cons m t ih =>
      by_cases hp : (m.id = some c && m.user_id = user_id) = true
      · simp only [List.find?, hp] at hfind
        have hmem : mem = m := by
          injection hfind with h
          exact h.symm
        subst hmem
        simp only [Bool.and_eq_true, decide_eq_true_eq] at hp
        have hv : bfsUnvisited user_id visited mem = true := by
          unfold bfsUnvisited
          rw [hp.1]
          simp [hp.2]
          simpa using hc
        have hcv : bfsUnvisited user_id (c :: visited) mem = false := by
          unfold bfsUnvisited
          rw [hp.1]
          simp [List.contains_cons]
        unfold unvisitedWeight
        simp only [List.filter_cons, hv, hcv, Bool.false_eq_true, if_false, if_true,
          List.map_cons, List.sum_cons]
        have := unvisitedWeight_cons_le t user_id c visited
        unfold unvisitedWeight at this
        omega
      · have hpf : (m.id = some c && m.user_id = user_id) = false :=
          Bool.not_eq_true _ |>.mp hp
        simp only [List.find?, hpf] at hfind
        have ihh := ih hfind
        unfold unvisitedWeight at ihh ⊢
        simp only [List.filter_cons]
        by_cases h1 : bfsUnvisited user_id (c :: visited) m = true
        · have h2 := bfsUnvisited_cons user_id c visited m h1
          simp only [h1, h2, if_true, List.map_cons, List.sum_cons]
          omega
        · simp only [Bool.not_eq_true] at h1
          by_cases h2 : bfsUnvisited user_id visited m = true
          · simp only [h1, h2, Bool.false_eq_true, if_false, if_true,
              List.map_cons, List.sum_cons]
            omega
          · simp only [Bool.not_eq_true] at h2
            simp only [h1, h2, Bool.false_eq_true, if_false]
            exact ihh

theorem bfs_loop_isSome (store : List UserMemoryDocument) (user_id : String)
    (max_depth : Nat) :
    ∀ (fuel : Nat) (visited : List String) (nodes : List GraphNode)
      (edges : List GraphEdge) (queue : List (String × Nat)),
      unvisitedWeight store user_id visited + queue.length ≤ fuel →
      (bfs_loop store user_id max_depth fuel visited nodes edges queue).isSome = true := by
  intro fuel
  induction fuel with
  | zero =>
      intro visited nodes edges queue h
      cases queue with
      | nil => simp [bfs_loop]
      | cons head qs =>
          rw [List.length_cons] at h
          omega
  | succ n ih =>
      intro visited nodes edges queue h
      cases queue with
      | nil => simp [bfs_loop]
      | cons head qs =>
          obtain ⟨c, d⟩ := head
          rw [List.length_cons] at h
          simp only [bfs_loop]
          by_cases hskip : (visited.contains c || decide (max_depth < d)) = true
          · rw [if_pos hskip]
            exact ih visited nodes edges qs (by omega)
          · rw [if_neg hskip]
            have hcvis : visited.contains c = false := by
              simp only [Bool.or_eq_true, not_or, Bool.not_eq_true] at hskip
              exact hskip.1
            have hmono := unvisitedWeight_cons_le store user_id c visited
            cases hfind : findMemory store user_id c with
            | none =>
                exact ih (c :: visited) nodes edges qs (by omega)
            | some mem_doc =>
                have hdrop := unvisitedWeight_find_drop store user_id c visited mem_doc
                  hcvis hfind
                have hq : (qs ++ (mem_doc.relationships.filter
                    (fun r => !((c :: visited).contains r.memory_id))).map
                    (fun r => (r.memory_id, d + 1))).length
                    ≤ qs.length + mem_doc.relationships.length := by
                  rw [List.length_append, List.length_map]
                  have := List.length_filter_le
                    (fun r => !((c :: visited).contains r.memory_id))
                    mem_doc.relationships
                  omega
                apply ih
                omega

theorem bfs_loop_nodes (store : List UserMemoryDocument) (user_id : String)
    (max_depth : Nat) :
    ∀ (fuel : Nat) (visited : List String) (nodes : List GraphNode)
      (edges : List GraphEdge) (queue : List (String × Nat))
      (ns : List GraphNode) (es : List GraphEdge),
      bfs_loop store user_id max_depth fuel visited nodes edges queue = some (ns, es) →
      (nodes.map (fun n => n.id)).Nodup →
      (∀ n ∈ nodes, n.id ∈ visited) →
      (∀ n ∈ nodes, n.depth ≤ max_depth) →
      (∀ n ∈ nodes, ∃ mem ∈ store, mem.id = some n.id ∧ mem.user_id = user_id) →
      ((ns.map (fun n => n.id)).Nodup ∧ (∀ n ∈ ns, n.depth ≤ max_depth) ∧
        (∀ n ∈ ns, ∃ mem ∈ store, mem.id = some n.id ∧ mem.user_id = user_id)) := by
  intro fuel
  induction fuel with
  | zero =>
      intro visited nodes edges queue ns es hrun hnd hvis hdep hrec
      cases queue with
      | nil =>
          simp only [bfs_loop, Option.some.injEq] at hrun
          obtain ⟨h1, _⟩ := Prod.mk.injEq .. ▸ hrun
          cases hrun
          exact ⟨hnd, hdep, hrec⟩
      | cons head qs => simp [bfs_loop] at hrun
  | succ n ih =>
      intro visited nodes edges queue ns es hrun hnd hvis hdep hrec
      cases queue with
      | nil =>
          simp only [bfs_loop, Option.some.injEq] at hrun
          cases hrun
          exact ⟨hnd, hdep, hrec⟩
      | cons head qs =>
          obtain ⟨c, d⟩ := head
          simp only [bfs_loop] at hrun
          by_cases hskip : (visited.contains c || decide (max_depth < d)) = true
          · rw [if_pos hskip] at hrun
            exact ih visited nodes edges qs ns es hrun hnd hvis hdep hrec
          · rw [if_neg hskip] at hrun
            have hcvis : visited.contains c = false := by
              simp only [Bool.or_eq_true, not_or, Bool.not_eq_true] at hskip
              exact hskip.1
            have hdle : d ≤ max_depth := by
              simp only [Bool.or_eq_true, not_or, Bool.not_eq_true,
                decide_eq_false_iff_not, not_lt] at hskip
              exact hskip.2
            have hcnot : c ∉ visited := by simpa using hcvis
            cases hfind : findMemory store user_id c with
            | none =>
                rw [hfind] at hrun
                refine ih (c :: visited) nodes edges qs ns es hrun hnd ?_ hdep hrec
                intro n hn
                exact List.mem_cons_of_mem c (hvis n hn)
            | some mem_doc =>
                rw [hfind] at hrun
                have hmemstore : mem_doc ∈ store := List.mem_of_find?_eq_some hfind
                have hpred := List.find?_some hfind
                simp only [Bool.and_eq_true, decide_eq_true_eq] at hpred
                refine ih (c :: visited) _ _ _ ns es hrun ?_ ?_ ?_ ?_
                · rw [List.map_append, List.nodup_append]
                  refine ⟨hnd, by simp, ?_⟩
                  intro a ha hb
                  simp only [List.map_cons, List.map_nil, List.mem_singleton] at hb
                  subst hb
                  rcases List.mem_map.mp ha with ⟨n, hn, hni⟩
                  exact hcnot (hni ▸ hvis n hn)
                · intro n hn
                  rcases List.mem_append.mp hn with hn | hn
                  · exact List.mem_cons_of_mem c (hvis n hn)
                  · simp only [List.mem_singleton] at hn
                    subst hn
                    exact List.mem_cons_self c visited
                · intro n hn
                  rcases List.mem_append.mp hn with hn | hn
                  · exact hdep n hn
                  · simp only [List.mem_singleton] at hn
                    subst hn
                    exact hdle
                · intro n hn
                  rcases List.mem_append.mp hn with hn | hn
                  · exact hrec n hn
                  · simp only [List.mem_singleton] at hn
                    subst hn
                    exact ⟨mem_doc, hmemstore, hpred.1, hpred.2⟩

/-- C10: on every store and every relationship graph — cycles included —
`get_memory_graph` terminates (the BFS consumes its fuel bound, derived
from the visited-set discipline, and returns a value), each node id occurs
at most once in the returned node list, every returned node respects the
`max_depth` limit, and every returned node corresponds to an existing
record of the user — an edge whose target record no longer exists
contributes no node and causes no error. -/
theorem C10_graph_traversal (store : List UserMemoryDocument)
    (user_id memory_id : String) (max_depth : Nat) :
    ∃ nodes edges,
      get_memory_graph store user_id memory_id max_depth = some (nodes, edges) ∧
      (nodes.map (fun n => n.id)).Nodup ∧
      (∀ n ∈ nodes, n.depth ≤ max_depth) ∧
      (∀ n ∈ nodes, ∃ mem ∈ store, mem.id = some n.id ∧ mem.user_id = user_id) := by
  unfold get_memory_graph
  cases hroot : findMemory store user_id memory_id with
  | none => exact ⟨[], [], rfl, by simp, by simp, by simp⟩
  | some root =>
      have hsome := bfs_loop_isSome store user_id max_depth
        (unvisitedWeight store user_id [] + 2) [] [] [] [(memory_id, 0)]
        (by simp)
      obtain ⟨res, hval⟩ := Option.isSome_iff_exists.mp hsome
      obtain ⟨ns, es⟩ := res
      refine ⟨ns, es, hval, ?_⟩
      exact bfs_loop_nodes store user_id max_depth
        (unvisitedWeight store user_id [] + 2) [] [] [] [(memory_id, 0)] ns es
        hval (by simp) (by simp) (by simp) (by simp)
